import Mathlib

/-!
Shallow embedding of `recipes/libiconv/all/conanfile.py` (class `LibiconvConan`)
and proofs about its claims.

The recipe is pure configuration glue: option handling, environment-variable
wiring, configure-argument construction, a textual patch of a resource helper
script, and post-install file clean-up.  Each method that a claim refers to is
translated below into an executable Lean function over an explicit model of
the Conan settings/options/file state it touches.
-/

namespace Libiconv

/-- Operating systems relevant to the recipe's branches (`self.settings.os`). -/
inductive OSKind where
  | Windows
  | Linux
  | Macos
  | FreeBSD
  | Android
deriving DecidableEq

/-- CPU architectures relevant to the recipe (`self.settings.arch`). -/
inductive ArchKind where
  | x86_64
  | x86
  | armv8
  | armv7
  | ppc64
  | riscv64
deriving DecidableEq

/-- Compilers relevant to the recipe (`self.settings.compiler`). -/
inductive CompilerKind where
  | msvc
  | clang
  | gcc
  | apple_clang
deriving DecidableEq

/-- The subset of `self.settings` the recipe reads.  `runtime` models
`self.settings.compiler.get_safe("runtime")`: `none` when the setting is not
defined for the compiler, otherwise the value string. -/
structure Settings where
  os : OSKind
  arch : ArchKind
  compiler : CompilerKind
  runtime : Option String
deriving DecidableEq

/-- Python truthiness of an optional string (`None` and `""` are falsy). -/
def truthyStr : Option String → Bool
  | none => false
  | some s => !s.isEmpty

/-- `conan.tools.microsoft.is_msvc`: the compiler is `msvc`. -/
def is_msvc (s : Settings) : Bool :=
  decide (s.compiler = CompilerKind.msvc)

/-- `LibiconvConan._is_clang_cl`: clang targeting Windows with a `runtime`
setting defined (truthy). -/
def is_clang_cl (s : Settings) : Bool :=
  decide (s.compiler = CompilerKind.clang) && decide (s.os = OSKind.Windows)
    && truthyStr s.runtime

/-- `LibiconvConan._msvc_tools`: `(cc, lib, link)` tool names. -/
def msvc_tools (s : Settings) : String × String × String :=
  if is_clang_cl s then ("clang-cl", "llvm-lib", "lld-link") else ("cl", "lib", "link")

/-- The arch → GNU-triplet-arch table `triplet_arch_windows` in
`LibiconvConan.generate` (a dict lookup returning `None` when unmapped). -/
def triplet_arch_windows : ArchKind → Option String
  | ArchKind.x86_64 => some "x86_64"
  | ArchKind.x86 => some "i686"
  | ArchKind.armv8 => some "aarch64"
  | _ => none

/-- The configure-argument part of `LibiconvConan.generate`: when
cross-building for MSVC and both host and build arch map to a triplet arch,
extend `tc.configure_args` with `--host` and `--build`; otherwise leave the
arguments unchanged.  `crossBuilding` models `cross_building(self)` and
`buildArch` models `self.settings_build.arch`. -/
def generate_configure_args (crossBuilding : Bool) (s : Settings) (buildArch : ArchKind)
    (args : List String) : List String :=
  if crossBuilding && is_msvc s then
    match triplet_arch_windows s.arch, triplet_arch_windows buildArch with
    | some hostArch, some bldArch =>
        args ++ ["--host=" ++ hostArch ++ "-w64-mingw32",
                 "--build=" ++ bldArch ++ "-w64-mingw32"]
    | _, _ => args
  else args

/-- The environment-definition part of `LibiconvConan.generate`: on MSVC or
clang-cl, define the wrapper/tool variables in source order; otherwise define
none of them.  `lt_compile` and `lt_ar` model the unix paths of the
`build-aux/compile` and `build-aux/ar-lib` wrapper scripts. -/
def generate_env (s : Settings) (lt_compile lt_ar : String) : List (String × String) :=
  if is_msvc s || is_clang_cl s then
    let cc := (msvc_tools s).1
    let lib := (msvc_tools s).2.1
    let link := (msvc_tools s).2.2
    [("CC", lt_compile ++ " " ++ cc ++ " -nologo"),
     ("CXX", lt_compile ++ " " ++ cc ++ " -nologo"),
     ("LD", link),
     ("STRIP", ":"),
     ("AR", lt_ar ++ " " ++ lib),
     ("RANLIB", ":"),
     ("NM", "dumpbin -symbols"),
     ("win32_target", "_WIN32_WINNT_VISTA")]
  else []

/-- The recipe's two boolean options.  `fPIC = none` models the option having
been deleted (`del self.options.fPIC` / `rm_safe`). -/
structure Options where
  shared : Bool
  fPIC : Option Bool
deriving DecidableEq

/-- `LibiconvConan.config_options`: on Windows, delete the `fPIC` option. -/
def config_options (os : OSKind) (o : Options) : Options :=
  if os = OSKind.Windows then { o with fPIC := none } else o

/-- The mutable configuration state that `configure` touches: the options and
the `compiler.libcxx` / `compiler.cppstd` sub-settings (`none` = removed). -/
structure ConfigState where
  options : Options
  libcxx : Option String
  cppstd : Option String
deriving DecidableEq

/-- `LibiconvConan.configure`: if `shared`, remove `fPIC` (safely); always
remove `compiler.libcxx` and `compiler.cppstd`. -/
def configure (c : ConfigState) : ConfigState :=
  let c1 := if c.options.shared then { c with options := { c.options with fPIC := none } } else c
  { c1 with libcxx := none, cppstd := none }

/-- `LibiconvConan.build_requirements`: returns (tool requirements added,
final `win_bash` flag).  `bashPath` models
`self.conf.get("tools.microsoft.bash:path", check_type=str)`; `win_bash`
starts falsy and is set to `True` only inside the Windows branch. -/
def build_requirements (buildOs : OSKind) (bashPath : Option String) : List String × Bool :=
  if buildOs = OSKind.Windows then
    ((if truthyStr bashPath then [] else ["msys2/cci.latest"]), true)
  else ([], false)

/-- The package metadata emitted by `package_info`. -/
structure CppInfo where
  libs : List String
  properties : List (String × String)
deriving DecidableEq

/-- `LibiconvConan.package_info`: three CMake discovery properties and the
library name list, in source order. -/
def package_info : CppInfo :=
  { libs := ["iconv", "charset"],
    properties :=
      [("cmake_find_mode", "both"),
       ("cmake_file_name", "Iconv"),
       ("cmake_target_name", "Iconv::Iconv")] }

/-- Look up a property set by `set_property`. -/
def getProperty (info : CppInfo) (key : String) : Option String :=
  (info.properties.find? (fun kv => kv.1 == key)).map (fun kv => kv.2)

/-- C3: after `config_options`, the `fPIC` option is absent exactly on Windows
targets; on every non-Windows target it is left untouched (so it remains
present whenever it was present, as it is by default). -/
theorem c3_fpic_windows (os : OSKind) (o : Options) :
    (os = OSKind.Windows → (config_options os o).fPIC = none)
    ∧ (os ≠ OSKind.Windows → (config_options os o).fPIC = o.fPIC) := by
  constructor
  · intro h
    simp [config_options, h]
  · intro h
    simp [config_options, h]

/-- Witness for C3 at concrete inputs: Windows deletes `fPIC`, Linux keeps it. -/
theorem c3_fpic_windows_witness :
    (config_options OSKind.Windows { shared := false, fPIC := some true }).fPIC = none
    ∧ (config_options OSKind.Linux { shared := false, fPIC := some true }).fPIC = some true :=
  ⟨(c3_fpic_windows OSKind.Windows { shared := false, fPIC := some true }).1 rfl,
   (c3_fpic_windows OSKind.Linux { shared := false, fPIC := some true }).2 (by decide)⟩

/-- C4: for every configuration with `shared = true`, `fPIC` is absent after
`configure` runs, regardless of the target operating system (the removal is
unconditional on OS). -/
theorem c4_shared_removes_fpic (c : ConfigState) (h : c.options.shared = true) :
    (configure c).options.fPIC = none := by
  simp [configure, h]

/-- Witness for C4 at a concrete shared configuration (fPIC still present,
as on a non-Windows target). -/
theorem c4_shared_removes_fpic_witness :
    (configure { options := { shared := true, fPIC := some true },
                 libcxx := some "libstdc++", cppstd := some "17" }).options.fPIC = none :=
  c4_shared_removes_fpic
    { options := { shared := true, fPIC := some true },
      libcxx := some "libstdc++", cppstd := some "17" } rfl

/-- C7: for every configuration, `configure` removes `compiler.libcxx` and
`compiler.cppstd` from the configuration. -/
theorem c7_strips_cxx_settings (c : ConfigState) :
    (configure c).libcxx = none ∧ (configure c).cppstd = none := by
  constructor <;> simp [configure]

/-- C10: on a Windows build host, `build_requirements` sets `win_bash`
unconditionally and adds the msys2 tool requirement exactly when
`tools.microsoft.bash:path` is not set (falsy); on non-Windows build hosts it
does neither. -/
theorem c10_build_requirements (buildOs : OSKind) (bashPath : Option String) :
    (buildOs = OSKind.Windows →
      (build_requirements buildOs bashPath).2 = true
      ∧ ((build_requirements buildOs bashPath).1 = ["msys2/cci.latest"]
          ↔ truthyStr bashPath = false))
    ∧ (buildOs ≠ OSKind.Windows → build_requirements buildOs bashPath = ([], false)) := by
  constructor
  · intro h
    subst h
    refine ⟨by simp [build_requirements], ?_⟩
    cases hb : truthyStr bashPath <;> simp [build_requirements, hb]
  · intro h
    simp [build_requirements, h]

/-- Witness for C10: on Windows with no bash path configured, msys2 is
required and `win_bash` is set; on Linux neither happens. -/
theorem c10_build_requirements_witness :
    (build_requirements OSKind.Windows none).2 = true
    ∧ (build_requirements OSKind.Windows none).1 = ["msys2/cci.latest"]
    ∧ build_requirements OSKind.Linux none = ([], false) :=
  ⟨((c10_build_requirements OSKind.Windows none).1 rfl).1,
   ((c10_build_requirements OSKind.Windows none).1 rfl).2.mpr rfl,
   (c10_build_requirements OSKind.Linux none).2 (by decide)⟩

/-- C8: `package_info` declares exactly the libraries `iconv` then `charset`
and the three CMake discovery properties. -/
theorem c8_package_info :
    package_info.libs = ["iconv", "charset"]
    ∧ getProperty package_info "cmake_find_mode" = some "both"
    ∧ getProperty package_info "cmake_file_name" = some "Iconv"
    ∧ getProperty package_info "cmake_target_name" = some "Iconv::Iconv" := by
  refine ⟨rfl, ?_, ?_, ?_⟩ <;> rfl

/-- C2: for a cross-building MSVC configuration, the triplet table maps
x86_64 ↦ x86_64, x86 ↦ i686, armv8 ↦ aarch64; when both host and build arch
are mapped, `generate` appends exactly `--host=<a>-w64-mingw32` and
`--build=<b>-w64-mingw32` to the configure arguments, and when either arch is
unmapped it appends nothing. -/
theorem c2_msvc_cross_triplets (s : Settings) (buildArch : ArchKind) (args : List String)
    (hmsvc : s.compiler = CompilerKind.msvc) :
    (triplet_arch_windows ArchKind.x86_64 = some "x86_64"
      ∧ triplet_arch_windows ArchKind.x86 = some "i686"
      ∧ triplet_arch_windows ArchKind.armv8 = some "aarch64")
    ∧ (∀ a b, triplet_arch_windows s.arch = some a → triplet_arch_windows buildArch = some b →
        generate_configure_args true s buildArch args
          = args ++ ["--host=" ++ a ++ "-w64-mingw32", "--build=" ++ b ++ "-w64-mingw32"])
    ∧ (triplet_arch_windows s.arch = none ∨ triplet_arch_windows buildArch = none →
        generate_configure_args true s buildArch args = args) := by
  refine ⟨⟨rfl, rfl, rfl⟩, ?_, ?_⟩
  · intro a b ha hb
    simp [generate_configure_args, is_msvc, hmsvc, ha, hb]
  · intro h
    rcases h with h | h
    · simp [generate_configure_args, is_msvc, hmsvc, h]
    · cases hh : triplet_arch_windows s.arch <;>
        simp [generate_configure_args, is_msvc, hmsvc, h, hh]

/-- Witness for C2: cross MSVC host=x86 build=x86_64 appends the two mapped
triplet arguments; host=armv7 (unmapped) appends none. -/
theorem c2_msvc_cross_triplets_witness :
    generate_configure_args true
        { os := OSKind.Windows, arch := ArchKind.x86, compiler := CompilerKind.msvc,
          runtime := some "dynamic" } ArchKind.x86_64 ["--prefix=/"]
      = ["--prefix=/", "--host=i686-w64-mingw32", "--build=x86_64-w64-mingw32"]
    ∧ generate_configure_args true
        { os := OSKind.Windows, arch := ArchKind.armv7, compiler := CompilerKind.msvc,
          runtime := some "dynamic" } ArchKind.x86_64 ["--prefix=/"]
      = ["--prefix=/"] :=
  ⟨(c2_msvc_cross_triplets
      { os := OSKind.Windows, arch := ArchKind.x86, compiler := CompilerKind.msvc,
        runtime := some "dynamic" } ArchKind.x86_64 ["--prefix=/"] rfl).2.1
      "i686" "x86_64" rfl rfl,
   (c2_msvc_cross_triplets
      { os := OSKind.Windows, arch := ArchKind.armv7, compiler := CompilerKind.msvc,
        runtime := some "dynamic" } ArchKind.x86_64 ["--prefix=/"] rfl).2.2
      (Or.inl rfl)⟩

/-- C9: `_is_clang_cl` holds exactly when the compiler is clang, the OS is
Windows, and the `runtime` setting is defined (truthy); clang is never
`is_msvc`; a clang configuration that is not clang-cl gets no MSVC-style
environment definitions; and a clang-cl configuration gets exactly the
clang-cl wrapper environment. -/
theorem c9_clang_cl_env (s : Settings) (lt_compile lt_ar : String) :
    (is_clang_cl s = true
      ↔ s.compiler = CompilerKind.clang ∧ s.os = OSKind.Windows ∧ truthyStr s.runtime = true)
    ∧ (s.compiler = CompilerKind.clang → is_msvc s = false)
    ∧ (s.compiler = CompilerKind.clang →
        ¬(s.os = OSKind.Windows ∧ truthyStr s.runtime = true) →
        generate_env s lt_compile lt_ar = [])
    ∧ (is_clang_cl s = true →
        generate_env s lt_compile lt_ar
          = [("CC", lt_compile ++ " " ++ "clang-cl" ++ " -nologo"),
             ("CXX", lt_compile ++ " " ++ "clang-cl" ++ " -nologo"),
             ("LD", "lld-link"),
             ("STRIP", ":"),
             ("AR", lt_ar ++ " " ++ "llvm-lib"),
             ("RANLIB", ":"),
             ("NM", "dumpbin -symbols"),
             ("win32_target", "_WIN32_WINNT_VISTA")]) := by
  refine ⟨?_, ?_, ?_, ?_⟩
  · simp [is_clang_cl, and_assoc]
  · intro h
    simp [is_msvc, h]
  · intro hclang hnot
    have hcl : is_clang_cl s = false := by
      simp [is_clang_cl, hclang]
      intro hw
      rcases Bool.eq_false_or_eq_true (truthyStr s.runtime) with ht | ht
      · exact absurd ⟨hw, ht⟩ hnot
      · exact ht
    simp [generate_env, is_msvc, hclang, hcl]
  · intro hcl
    have hclang : s.compiler = CompilerKind.clang := by
      have := (by simpa [is_clang_cl, and_assoc] using hcl :
        s.compiler = CompilerKind.clang ∧ s.os = OSKind.Windows ∧ truthyStr s.runtime = true)
      exact this.1
    simp [generate_env, msvc_tools, is_msvc, hclang, hcl]

/-- Witness for C9: clang-cl (clang + Windows + runtime) gets the wrapper
environment; clang on Windows without a runtime setting gets none. -/
theorem c9_clang_cl_env_witness :
    generate_env
        { os := OSKind.Windows, arch := ArchKind.x86_64, compiler := CompilerKind.clang,
          runtime := some "dynamic" } "/c" "/a"
      = [("CC", "/c clang-cl -nologo"),
         ("CXX", "/c clang-cl -nologo"),
         ("LD", "lld-link"),
         ("STRIP", ":"),
         ("AR", "/a llvm-lib"),
         ("RANLIB", ":"),
         ("NM", "dumpbin -symbols"),
         ("win32_target", "_WIN32_WINNT_VISTA")]
    ∧ generate_env
        { os := OSKind.Windows, arch := ArchKind.x86_64, compiler := CompilerKind.clang,
          runtime := none } "/c" "/a"
      = [] :=
  ⟨(c9_clang_cl_env
      { os := OSKind.Windows, arch := ArchKind.x86_64, compiler := CompilerKind.clang,
        runtime := some "dynamic" } "/c" "/a").2.2.2 rfl,
   (c9_clang_cl_env
      { os := OSKind.Windows, arch := ArchKind.x86_64, compiler := CompilerKind.clang,
        runtime := none } "/c" "/a").2.2.1 rfl (by decide)⟩

/-- A file path inside the package folder, as a list of components. -/
abbrev PkgPath := List String

/-- `p` lies under directory `dir` (has `dir` as a component prefix, or
equals it), used to model `rmdir`'s recursive removal. -/
def startsWithDir : PkgPath → PkgPath → Bool
  | [], _ => true
  | _ :: _, [] => false
  | d :: ds, c :: cs => decide (d = c) && startsWithDir ds cs

/-- String suffix test (the meaning of the fnmatch pattern `*.la`). -/
def strEndsWith (s sfx : String) : Bool :=
  List.isSuffixOf sfx.data s.data

/-- The final path component (the file name), `""` for the empty path. -/
def lastName : PkgPath → String
  | [] => ""
  | [n] => n
  | _ :: rest => lastName rest

/-- `p` is a file directly inside `dir` whose name matches the fnmatch
pattern `*.la` (i.e. ends with `.la`). -/
def isLaFileIn (dir : PkgPath) (p : PkgPath) : Bool :=
  startsWithDir dir p && decide (p.length = dir.length + 1)
    && strEndsWith (lastName p) ".la"

/-- `rm(self, "*.la", lib)`: non-recursive removal of `*.la` files directly in
the given folder. -/
def rm_la (dir : PkgPath) (files : List PkgPath) : List PkgPath :=
  files.filter (fun p => !isLaFileIn dir p)

/-- `rmdir(self, dir)`: recursive removal of the directory's subtree. -/
def rmdir_all (dir : PkgPath) (files : List PkgPath) : List PkgPath :=
  files.filter (fun p => !startsWithDir dir p)

/-- `rename(self, old, new)` on a file: every path equal to `old` becomes
`new` (the recipe only renames plain files that the install step created). -/
def rename_file (old new : PkgPath) (files : List PkgPath) : List PkgPath :=
  files.map (fun p => if p = old then new else p)

/-- The package-folder file set after the unconditional part of
`LibiconvConan.package`: the copied license, the externally installed files,
minus `*.la` files directly in `lib`, minus the `share` subtree. -/
def cleaned_files (installed : List PkgPath) : List PkgPath :=
  rmdir_all ["share"] (rm_la ["lib"] (["licenses", "COPYING.LIB"] :: installed))

/-- `LibiconvConan.package` as a transformation of the package-folder file
set: copy the license, take the externally installed files, delete `*.la`
directly in `lib`, delete the `share` subtree, and for MSVC-family shared
builds rename the two import libraries in loop order (iconv, then charset).
`fix_apple_shared_install_name` edits file contents only, so it does not
change the file set. -/
def package_step (s : Settings) (shared : Bool) (installed : List PkgPath) : List PkgPath :=
  if (is_msvc s || is_clang_cl s) && shared then
    rename_file ["lib", "charset.dll.lib"] ["lib", "charset.lib"]
      (rename_file ["lib", "iconv.dll.lib"] ["lib", "iconv.lib"] (cleaned_files installed))
  else cleaned_files installed

theorem mem_cleaned_iff (installed : List PkgPath) (p : PkgPath) :
    p ∈ cleaned_files installed ↔
      (p = ["licenses", "COPYING.LIB"] ∨ p ∈ installed)
      ∧ isLaFileIn ["lib"] p = false ∧ startsWithDir ["share"] p = false := by
  simp [cleaned_files, rmdir_all, rm_la, List.mem_filter, and_assoc]
  tauto

/-- C5: after the package step, assuming the external install put every
libtool `*.la` archive directly in `lib` (which is where libtool installs
them), no `*.la` file and nothing under the `share` directory remains in the
package folder, for every configuration. -/
theorem c5_package_clean (s : Settings) (shared : Bool) (installed : List PkgPath)
    (hla : ∀ p ∈ installed, strEndsWith (lastName p) ".la" = true → p = ["lib", lastName p]) :
    ∀ p ∈ package_step s shared installed,
      strEndsWith (lastName p) ".la" = false ∧ startsWithDir ["share"] p = false := by
  have hbase : ∀ q ∈ cleaned_files installed,
      strEndsWith (lastName q) ".la" = false ∧ startsWithDir ["share"] q = false := by
    intro q hq
    rw [mem_cleaned_iff] at hq
    obtain ⟨hqmem, hqla, hqshare⟩ := hq
    refine ⟨?_, hqshare⟩
    cases hend : strEndsWith (lastName q) ".la" with
    | false => rfl
    | true =>
      exfalso
      rcases hqmem with rfl | hqmem
      · exact absurd hend (by decide)
      · have hq2 := hla q hqmem hend
        rw [hq2] at hqla
        simp [isLaFileIn, startsWithDir, lastName] at hqla
        simp [hqla] at hend
  intro p hp
  rcases Bool.eq_false_or_eq_true ((is_msvc s || is_clang_cl s) && shared) with hc | hc
  · simp only [package_step, hc, if_true] at hp
    simp only [rename_file, List.map_map, List.mem_map, Function.comp] at hp
    obtain ⟨q, hq, himg⟩ := hp
    by_cases h1 : q = ["lib", "iconv.dll.lib"]
    · subst h1
      simp at himg
      rw [← himg]
      exact ⟨by decide, by decide⟩
    · by_cases h2 : q = ["lib", "charset.dll.lib"]
      · subst h2
        simp at himg
        rw [← himg]
        exact ⟨by decide, by decide⟩
      · simp [h1, h2] at himg
        rw [← himg]
        exact hbase q hq
  · simp only [package_step, hc, Bool.false_eq_true, if_false] at hp
    exact hbase p hp

def c5SampleInstalled : List PkgPath :=
  [["lib", "libiconv.la"], ["lib", "libcharset.la"], ["lib", "libiconv.so"],
   ["share", "doc", "iconv.html"], ["include", "iconv.h"]]

/-- Witness for C5 on a concrete gcc/Linux install tree containing `*.la`
files in `lib` and a `share` subtree: the surviving header is neither. -/
theorem c5_package_clean_witness :
    strEndsWith (lastName (["include", "iconv.h"] : PkgPath)) ".la" = false
    ∧ startsWithDir ["share"] ["include", "iconv.h"] = false :=
  c5_package_clean
    { os := OSKind.Linux, arch := ArchKind.x86_64, compiler := CompilerKind.gcc, runtime := none }
    false c5SampleInstalled (by decide) ["include", "iconv.h"] (by decide)

/-- C6: for MSVC-family (MSVC or clang-cl) shared builds, and provided the
install step produced `lib/iconv.dll.lib` and `lib/charset.dll.lib`, the
package step renames them to `lib/iconv.lib` and `lib/charset.lib` (the
`.dll.lib` names are gone); for static builds and non-MSVC-family compilers,
the file set is exactly the cleaned install tree — no rename occurs and the
`.dll.lib` files are still present. -/
theorem c6_import_lib_rename (s : Settings) (shared : Bool) (installed : List PkgPath)
    (h1 : ["lib", "iconv.dll.lib"] ∈ installed)
    (h2 : ["lib", "charset.dll.lib"] ∈ installed) :
    (((is_msvc s || is_clang_cl s) && shared) = true →
      ["lib", "iconv.lib"] ∈ package_step s shared installed
      ∧ ["lib", "charset.lib"] ∈ package_step s shared installed
      ∧ ["lib", "iconv.dll.lib"] ∉ package_step s shared installed
      ∧ ["lib", "charset.dll.lib"] ∉ package_step s shared installed)
    ∧ (((is_msvc s || is_clang_cl s) && shared) = false →
      package_step s shared installed = cleaned_files installed
      ∧ ["lib", "iconv.dll.lib"] ∈ package_step s shared installed
      ∧ ["lib", "charset.dll.lib"] ∈ package_step s shared installed) := by
  have hdi : (["lib", "iconv.dll.lib"] : PkgPath) ∈ cleaned_files installed :=
    (mem_cleaned_iff installed _).mpr ⟨Or.inr h1, by decide, by decide⟩
  have hdc : (["lib", "charset.dll.lib"] : PkgPath) ∈ cleaned_files installed :=
    (mem_cleaned_iff installed _).mpr ⟨Or.inr h2, by decide, by decide⟩
  constructor
  · intro hc
    refine ⟨?_, ?_, ?_, ?_⟩
    · simp only [package_step, hc, if_true, rename_file, List.map_map, List.mem_map,
        Function.comp]
      exact ⟨["lib", "iconv.dll.lib"], hdi, by decide⟩
    · simp only [package_step, hc, if_true, rename_file, List.map_map, List.mem_map,
        Function.comp]
      exact ⟨["lib", "charset.dll.lib"], hdc, by decide⟩
    · intro hmem
      simp only [package_step, hc, if_true, rename_file, List.map_map, List.mem_map,
        Function.comp] at hmem
      obtain ⟨q, hq, himg⟩ := hmem
      by_cases hq1 : q = ["lib", "iconv.dll.lib"]
      · subst hq1
        simp at himg
      · by_cases hq2 : q = ["lib", "charset.dll.lib"]
        · subst hq2
          simp at himg
        · simp [hq1, hq2] at himg
    · intro hmem
      simp only [package_step, hc, if_true, rename_file, List.map_map, List.mem_map,
        Function.comp] at hmem
      obtain ⟨q, hq, himg⟩ := hmem
      by_cases hq1 : q = ["lib", "iconv.dll.lib"]
      · subst hq1
        simp at himg
      · by_cases hq2 : q = ["lib", "charset.dll.lib"]
        · subst hq2
          simp at himg
        · simp [hq1, hq2] at himg
  · intro hc
    have heq : package_step s shared installed = cleaned_files installed := by
      simp only [package_step, hc, Bool.false_eq_true, if_false]
    exact ⟨heq, heq ▸ hdi, heq ▸ hdc⟩

def c6SampleInstalled : List PkgPath :=
  [["lib", "iconv.dll.lib"], ["lib", "charset.dll.lib"],
   ["bin", "iconv-2.dll"], ["include", "iconv.h"]]

/-- Witness for C6: an MSVC shared build renames `iconv.dll.lib` away and
produces `iconv.lib`; the same install tree under gcc static keeps
`iconv.dll.lib`. -/
theorem c6_import_lib_rename_witness :
    ["lib", "iconv.lib"] ∈ package_step
        { os := OSKind.Windows, arch := ArchKind.x86_64, compiler := CompilerKind.msvc,
          runtime := some "dynamic" } true c6SampleInstalled
    ∧ ["lib", "iconv.dll.lib"] ∉ package_step
        { os := OSKind.Windows, arch := ArchKind.x86_64, compiler := CompilerKind.msvc,
          runtime := some "dynamic" } true c6SampleInstalled
    ∧ ["lib", "iconv.dll.lib"] ∈ package_step
        { os := OSKind.Linux, arch := ArchKind.x86_64, compiler := CompilerKind.gcc,
          runtime := none } false c6SampleInstalled :=
  ⟨((c6_import_lib_rename
      { os := OSKind.Windows, arch := ArchKind.x86_64, compiler := CompilerKind.msvc,
        runtime := some "dynamic" } true c6SampleInstalled (by decide) (by decide)).1
      rfl).1,
   ((c6_import_lib_rename
      { os := OSKind.Windows, arch := ArchKind.x86_64, compiler := CompilerKind.msvc,
        runtime := some "dynamic" } true c6SampleInstalled (by decide) (by decide)).1
      rfl).2.2.1,
   ((c6_import_lib_rename
      { os := OSKind.Linux, arch := ArchKind.x86_64, compiler := CompilerKind.gcc,
        runtime := none } false c6SampleInstalled (by decide) (by decide)).2
      rfl).2.1⟩

/-- The anchor text searched for by `_apply_resource_patch`. -/
def anchorChars : List Char := "#   PACKAGE_VERSION_SUBMINOR".data

/-- The injected echo line (without the leading newline). -/
def echoChars : List Char := "echo \"--target=pe-i386\"".data

/-- The replacement text passed to `replace_in_file`: the anchor followed by
a newline and the echo line. -/
def injectedChars : List Char := "#   PACKAGE_VERSION_SUBMINOR\necho \"--target=pe-i386\"".data

/-- Python's `pat in s` on character lists. -/
def containsSub (pat : List Char) : List Char → Bool
  | [] => pat.isEmpty
  | c :: cs => List.isPrefixOf pat (c :: cs) || containsSub pat cs

/-- Python's `s.replace(pat, repl)` on character lists: replace every
occurrence of `pat`, scanning left to right without overlap (the guard on
`pat` being nonempty only serves termination; the recipe's pattern is a
nonempty literal). -/
def replaceAll (pat repl : List Char) : List Char → List Char
  | [] => []
  | c :: cs =>
    if h : (!pat.isEmpty && List.isPrefixOf pat (c :: cs)) = true then
      repl ++ replaceAll pat repl (List.drop pat.length (c :: cs))
    else
      c :: replaceAll pat repl cs
termination_by s => s.length
decreasing_by
  · simp only [List.length_drop, List.length_cons]
    have hne : pat ≠ [] := by
      intro hh
      simp [hh] at h
    have hl : 0 < pat.length := List.length_pos.mpr hne
    omega
  · simp

/-- `conan.tools.files.replace_in_file` with `strict=True`: raise (`none`)
exactly when the search text is absent, otherwise replace every occurrence
and write the file back. -/
def replace_in_file (search repl content : List Char) : Option (List Char) :=
  if containsSub search content then some (replaceAll search repl content) else none

/-- `LibiconvConan._apply_resource_patch` acting on the content of
`windows/windres-options`: only for arch x86, replace the anchor by the
anchor plus the echo line, strictly. -/
def apply_resource_patch (arch : ArchKind) (content : List Char) : Option (List Char) :=
  if arch = ArchKind.x86 then replace_in_file anchorChars injectedChars content
  else some content

theorem replaceAll_nil (pat repl : List Char) : replaceAll pat repl [] = [] := by
  simp [replaceAll]

theorem replaceAll_cons_pos (pat repl : List Char) (c : Char) (cs : List Char)
    (h : (!pat.isEmpty && List.isPrefixOf pat (c :: cs)) = true) :
    replaceAll pat repl (c :: cs)
      = repl ++ replaceAll pat repl (List.drop pat.length (c :: cs)) := by
  rw [replaceAll]
  simp [h]

theorem replaceAll_cons_neg (pat repl : List Char) (c : Char) (cs : List Char)
    (h : (!pat.isEmpty && List.isPrefixOf pat (c :: cs)) = false) :
    replaceAll pat repl (c :: cs) = c :: replaceAll pat repl cs := by
  rw [replaceAll]
  simp [h]

theorem isPrefixOf_append_self (l t : List Char) : List.isPrefixOf l (l ++ t) = true := by
  induction l with
  | nil => simp [List.isPrefixOf]
  | cons a as ih => simp [List.isPrefixOf, ih]

theorem length_le_of_isPrefixOf (pat s : List Char) (h : List.isPrefixOf pat s = true) :
    pat.length ≤ s.length := by
  induction pat generalizing s with
  | nil => simp
  | cons a as ih =>
    cases s with
    | nil => simp [List.isPrefixOf] at h
    | cons b bs =>
      simp only [List.isPrefixOf, Bool.and_eq_true] at h
      have := ih bs h.2
      simp only [List.length_cons]
      omega

theorem containsSub_nil_pat (s : List Char) : containsSub [] s = true := by
  cases s <;> simp [containsSub]

theorem containsSub_decomp (pat pre post : List Char) :
    containsSub pat (pre ++ pat ++ post) = true := by
  induction pre with
  | nil =>
    cases pat with
    | nil => simpa using containsSub_nil_pat post
    | cons a as =>
      simp only [List.nil_append, List.cons_append, containsSub]
      have : List.isPrefixOf (a :: as) ((a :: as) ++ post) = true :=
        isPrefixOf_append_self _ _
      simp only [List.cons_append] at this
      simp [this]
  | cons c pre' ih =>
    simp only [List.cons_append, containsSub, Bool.or_eq_true]
    exact Or.inr ih

theorem exists_of_containsSub (pat s : List Char) (hne : pat ≠ [])
    (h : containsSub pat s = true) :
    ∃ i, i + pat.length ≤ s.length ∧ List.isPrefixOf pat (List.drop i s) = true := by
  induction s with
  | nil =>
    exfalso
    cases pat with
    | nil => exact hne rfl
    | cons a as => simp [containsSub] at h
  | cons c cs ih =>
    simp only [containsSub, Bool.or_eq_true] at h
    rcases h with h | h
    · refine ⟨0, ?_, by simpa using h⟩
      have := length_le_of_isPrefixOf pat (c :: cs) h
      omega
    · obtain ⟨i, hle, hp⟩ := ih h
      refine ⟨i + 1, ?_, ?_⟩
      · simp only [List.length_cons]
        omega
      · simpa [List.drop_succ_cons] using hp

theorem replaceAll_not_contains (pat repl s : List Char) (h : containsSub pat s = false) :
    replaceAll pat repl s = s := by
  induction s with
  | nil => exact replaceAll_nil pat repl
  | cons c cs ih =>
    simp only [containsSub, Bool.or_eq_false_iff] at h
    rw [replaceAll_cons_neg pat repl c cs (by simp [h.1])]
    rw [ih h.2]

theorem replaceAll_decomp (pat repl pre post : List Char) (hne : pat ≠ [])
    (hpre : ∀ i, i < pre.length →
        List.isPrefixOf pat (List.drop i (pre ++ pat ++ post)) = false)
    (hpost : containsSub pat post = false) :
    replaceAll pat repl (pre ++ pat ++ post) = pre ++ repl ++ post := by
  induction pre with
  | nil =>
    simp only [List.nil_append]
    cases pat with
    | nil => exact absurd rfl hne
    | cons a as =>
      have hcond : (!(a :: as).isEmpty && List.isPrefixOf (a :: as) ((a :: as) ++ post)) = true := by
        simp [isPrefixOf_append_self]
      have hstep := replaceAll_cons_pos (a :: as) repl a (as ++ post) (by
        simpa only [List.cons_append] using hcond)
      have hdrop : List.drop (a :: as).length ((a :: as) ++ post) = post :=
        List.drop_left _ _
      simp only [List.cons_append] at hstep hdrop
      have hgoal : replaceAll (a :: as) repl (a :: (as ++ post)) = repl ++ post := by
        rw [hstep, hdrop, replaceAll_not_contains _ _ _ hpost]
      simpa only [List.cons_append] using hgoal
  | cons c pre' ih =>
    have h0 : List.isPrefixOf pat (c :: (pre' ++ pat ++ post)) = false := by
      have := hpre 0 (by simp)
      simpa using this
    have hstep := replaceAll_cons_neg pat repl c (pre' ++ pat ++ post) (by
      have h0' := h0
      simp only [List.append_assoc] at h0'
      simp [h0'])
    simp only [List.cons_append]
    rw [hstep, ih]
    intro i hi
    have := hpre (i + 1) (by simp only [List.length_cons]; omega)
    simpa [List.drop_succ_cons] using this

theorem anchor_ne_nil : anchorChars ≠ [] := by decide

theorem injected_decomp : injectedChars = anchorChars ++ '\n' :: echoChars := by decide

/-- C1: for an x86 configuration, the resource-patch step rewrites the
`windows/windres-options` content — which contains the anchor
`#   PACKAGE_VERSION_SUBMINOR` exactly once, at the position after `pre` —
into the same content with exactly one `echo "--target=pe-i386"` line
inserted immediately after the anchor, and it fails (a fatal
`replace_in_file` error, `none`) if and only if the anchor text is absent
from the file. -/
theorem c1_resource_patch (content pre post : List Char)
    (hdec : content = pre ++ anchorChars ++ post)
    (huniq : ∀ i, i < content.length →
        List.isPrefixOf anchorChars (List.drop i content) = true → i = pre.length) :
    apply_resource_patch ArchKind.x86 content
        = some (pre ++ anchorChars ++ ('\n' :: echoChars) ++ post)
    ∧ (∀ c, apply_resource_patch ArchKind.x86 c = none
        ↔ containsSub anchorChars c = false) := by
  constructor
  · subst hdec
    have hcontains : containsSub anchorChars (pre ++ anchorChars ++ post) = true :=
      containsSub_decomp _ _ _
    have hlen : (pre ++ anchorChars ++ post).length
        = pre.length + anchorChars.length + post.length := by
      simp [List.length_append]
      omega
    have hanchor : 0 < anchorChars.length := List.length_pos.mpr anchor_ne_nil
    have hpre : ∀ i, i < pre.length →
        List.isPrefixOf anchorChars (List.drop i (pre ++ anchorChars ++ post)) = false := by
      intro i hi
      cases hp : List.isPrefixOf anchorChars (List.drop i (pre ++ anchorChars ++ post)) with
      | false => rfl
      | true =>
        exfalso
        have := huniq i (by omega) hp
        omega
    have hpost : containsSub anchorChars post = false := by
      cases hcp : containsSub anchorChars post with
      | false => rfl
      | true =>
        exfalso
        obtain ⟨j, hjle, hjp⟩ := exists_of_containsSub _ _ anchor_ne_nil hcp
        have hdropEq :
            List.drop (pre.length + anchorChars.length + j) (pre ++ anchorChars ++ post)
              = List.drop j post := by
          rw [show pre.length + anchorChars.length + j = (pre ++ anchorChars).length + j by
            simp [List.length_append]]
          rw [← List.drop_drop, List.drop_left]
        have hip : List.isPrefixOf anchorChars
            (List.drop (pre.length + anchorChars.length + j)
              (pre ++ anchorChars ++ post)) = true := by
          rw [hdropEq]
          exact hjp
        have := huniq (pre.length + anchorChars.length + j) (by omega) hip
        omega
    have hrepl :=
      replaceAll_decomp anchorChars injectedChars pre post anchor_ne_nil hpre hpost
    simp only [apply_resource_patch, replace_in_file, hcontains, if_true, reduceIte]
    rw [hrepl, injected_decomp]
    simp [List.append_assoc]
  · intro c
    cases hc : containsSub anchorChars c with
    | true => simp [apply_resource_patch, replace_in_file, hc]
    | false => simp [apply_resource_patch, replace_in_file, hc]

def c1SamplePre : List Char := "# comment\n".data

def c1SamplePost : List Char := "\nsed 1d\n".data

def c1SampleContent : List Char := c1SamplePre ++ anchorChars ++ c1SamplePost

/-- Witness for C1 on a concrete `windres-options` fragment containing the
anchor exactly once: the patch inserts the echo line right after the anchor,
and content without the anchor makes the step fail. -/
theorem c1_resource_patch_witness :
    apply_resource_patch ArchKind.x86 c1SampleContent
      = some (c1SamplePre ++ anchorChars ++ ('\n' :: echoChars) ++ c1SamplePost)
    ∧ apply_resource_patch ArchKind.x86 "echo \"-O coff\"\n".data = none :=
  ⟨(c1_resource_patch c1SampleContent c1SamplePre c1SamplePost rfl (by decide)).1,
   ((c1_resource_patch c1SampleContent c1SamplePre c1SamplePost rfl (by decide)).2
      "echo \"-O coff\"\n".data).mpr (by decide)⟩

end Libiconv
